import Mathlib

/-!
Verification of the libmicrohttpd example event managers
(`src/examples/epoll_event_manager.c` and
`src/examples/kqueue_event_manager.c`) against their natural-language
specification.

The C code is shallowly embedded: `struct timeval` becomes a pair of
naturals, the timeout doubly-linked list becomes an explicit node store
with `next`/`previous` indices, watches dispatched by the reactor loop
are identified by their cookie (a natural number), and the kernel
backend (epoll / kqueue registration state, and the outcome of each
`epoll_ctl` / `kevent` / wait call) is made explicit, with a boolean
oracle standing for whether a system call succeeds.  Host callbacks are
modelled by their observable effect on the reactor state (which watches
they free, how they re-arm their own timeout, whether they request a
stop).
-/

namespace EventManager

/-- `struct timeval`: seconds and microseconds, as naturals.  The C code
only ever compares and subtracts timevals via the `timerisset`,
`timercmp` and `timersub` macros, modelled below. -/
structure Timeval where
  sec : Nat
  usec : Nat
deriving DecidableEq, Repr

/-- The zero sentinel `{0, 0}`, meaning *disarmed* for a timeout. -/
def timevalZero : Timeval := ⟨0, 0⟩

/-- `timerisset(tv)`: true when either field is non-zero. -/
def timevalIsSet (tv : Timeval) : Bool :=
  tv.sec ≠ 0 || tv.usec ≠ 0

/-- `timercmp(a, b, <)`: lexicographic strict comparison. -/
def timevalLt (a b : Timeval) : Bool :=
  a.sec < b.sec || (a.sec == b.sec && a.usec < b.usec)

/-- `timersub(a, b)` for `b ≤ a`: subtraction with borrow from the
seconds field when `a.usec < b.usec`. -/
def timevalSub (a b : Timeval) : Timeval :=
  if a.usec < b.usec then
    ⟨a.sec - b.sec - 1, a.usec + 1000000 - b.usec⟩
  else
    ⟨a.sec - b.sec, a.usec - b.usec⟩

/-- A timeval as a total count of microseconds. -/
def timevalUsec (tv : Timeval) : Nat :=
  tv.sec * 1000000 + tv.usec

/-- `struct timespec`: seconds and nanoseconds, used by the kqueue
backend's wait budget. -/
structure Timespec where
  sec : Nat
  nsec : Nat
deriving DecidableEq, Repr

/-- A timespec as a total count of milliseconds (floor), for comparing
the two backends' budgets against the spec's millisecond claims. -/
def timespecMs (ts : Timespec) : Nat :=
  ts.sec * 1000 + ts.nsec / 1000000

/-- One step of the earliest-deadline scan: the body of the
`while (timeout != NULL)` loop at the top of each iteration — replace
the current best (`none` = `found == 0`) when the node's trigger passes
`timerisset` and either nothing was found yet or it compares strictly
smaller. -/
def scanStep (acc : Option Timeval) (tr : Timeval) : Option Timeval :=
  if timevalIsSet tr &&
      (match acc with
       | none => true
       | some best => timevalLt tr best) then
    some tr
  else acc

/-- The earliest-deadline scan at the top of each `event_manager_loop`
iteration (identical in both backends): walk the timeout chain keeping
the first strictly-smallest trigger time among those passing
`timerisset`; `none` means `found == 0`. -/
def scanEarliest (ts : List Timeval) : Option Timeval :=
  ts.foldl scanStep none

/-- The epoll backend's wait budget `ms_to_sleep` in milliseconds:
10000 by default; with an earliest deadline `tv`, 0 when `tv < now`,
otherwise `remaining.tv_sec * 1000 + remaining.tv_usec / 1000`. -/
def epollBudgetMs (ts : List Timeval) (now : Timeval) : Nat :=
  match scanEarliest ts with
  | none => 10000
  | some tv =>
    if timevalLt tv now then 0
    else
      let remaining := timevalSub tv now
      remaining.sec * 1000 + remaining.usec / 1000

/-- The kqueue backend's wait budget `ts`: one second by default; with
an earliest deadline `tv`, zero when `tv < now`, otherwise the exact
remaining time converted to a timespec. -/
def kqueueBudgetTs (ts : List Timeval) (now : Timeval) : Timespec :=
  match scanEarliest ts with
  | none => ⟨1, 0⟩
  | some tv =>
    if timevalLt tv now then ⟨0, 0⟩
    else
      let remaining := timevalSub tv now
      ⟨remaining.sec, remaining.usec * 1000⟩

/-! ### The timeout doubly-linked list (`timeout_new`)

`timeout_new` links a fresh node into the `timeout_head`/`timeout_tail`
list (the code is identical in both backends).  Nodes are modelled by
identifiers into an explicit store, with `next`/`previous` links, so
that the pointer manipulation of the C code is reproduced exactly. -/

/-- One `struct MHD_Timeout` node: its links and trigger time. -/
structure TimeoutNode where
  next : Option Nat
  previous : Option Nat
  trigger : Timeval
deriving Repr

/-- The reactor's timeout list: head and tail pointers plus the node
store (`none` = no node allocated at that identifier). -/
structure TimeoutList where
  timeout_head : Option Nat
  timeout_tail : Option Nat
  nodes : Nat → Option TimeoutNode

/-- The empty timeout list. -/
def TimeoutList.empty : TimeoutList := ⟨none, none, fun _ => none⟩

/-- Store update at one identifier. -/
def setNode (nodes : Nat → Option TimeoutNode) (i : Nat)
    (n : TimeoutNode) : Nat → Option TimeoutNode :=
  fun j => if j = i then some n else nodes j

/-- `timeout_new` (both backends): allocate the node `id`, set its
trigger, and link it into the list.  In the empty branch head and tail
both point at the node and its links are null; in the non-empty branch
the node's `previous` is the old tail and the tail pointer is moved,
but — exactly as in the source — the old tail's `next` field is left
unchanged. -/
def timeout_new (s : TimeoutList) (id : Nat) (tv : Timeval) :
    TimeoutList :=
  match s.timeout_head with
  | none =>
    { timeout_head := some id
      timeout_tail := some id
      nodes := setNode s.nodes id ⟨none, none, tv⟩ }
  | some _ =>
    { s with
      timeout_tail := some id
      nodes := setNode s.nodes id ⟨none, s.timeout_tail, tv⟩ }

/-- The chain of node identifiers reachable from `start` by following
`next` pointers, cut off by `fuel` so the function is total. -/
def chainFrom (nodes : Nat → Option TimeoutNode) :
    Nat → Option Nat → List Nat
  | 0, _ => []
  | _, none => []
  | fuel + 1, some i =>
    match nodes i with
    | none => [i]
    | some n => i :: chainFrom nodes fuel n.next

/-- The identifiers a head-to-tail traversal of the list visits. -/
def TimeoutList.chain (s : TimeoutList) (fuel : Nat) : List Nat :=
  chainFrom s.nodes fuel s.timeout_head

/-! ### Watches and the backend registration state

The host's interest set `MHD_WATCH_IN` / `MHD_WATCH_OUT` is a pair of
bits; the epoll backend stores the translated `EPOLLIN | EPOLLOUT` bits
in `watch->events` (the translation is the identity on these two bits),
the kqueue backend stores `enable_read` / `enable_write` flags.  The
kernel-side registration for the watch's descriptor is tracked
explicitly, and each `epoll_ctl` / `kevent` change call takes a boolean
`ok` saying whether the system call succeeds (on failure the kernel
state is unchanged and the code merely logs). -/

/-- An interest mask: subset of `{READ, WRITE}`. -/
structure EMask where
  rd : Bool
  wr : Bool
deriving DecidableEq, Repr

/-- The empty mask. -/
def EMask.none : EMask := ⟨false, false⟩

/-- An epoll-backend watch: the `events` mask stored in the watch and
its tombstone flag. -/
structure EWatch where
  events : EMask
  deleted : Bool
deriving DecidableEq, Repr

/-- Kernel-side epoll registration for one descriptor: `Option.none`
means the fd is not registered; `some m` means it is registered with
mask `m` (`EPOLL_CTL_ADD` registers, `EPOLL_CTL_DEL` unregisters,
`EPOLL_CTL_MOD` replaces the mask). -/
def epollRegMask (b : Option EMask) : EMask :=
  match b with
  | .none => EMask.none
  | some m => m

/-- epoll `watch_update`: translate the interest to an events mask; if
it equals the stored mask, no-op; otherwise pick ADD/DEL/MOD, issue
`epoll_ctl` (which succeeds iff `ok`), and unconditionally overwrite
`watch->events` with the new mask — also when the call failed. -/
def epoll_watch_update (ok : Bool) (w : EWatch) (b : Option EMask)
    (interest : EMask) : EWatch × Option EMask :=
  let newEvents := interest
  if newEvents = w.events then (w, b)
  else
    let b' := if ok then
        (if newEvents = EMask.none then Option.none else some newEvents)
      else b
    ({ w with events := newEvents }, b')

/-- epoll `watch_new`: allocate (succeeds iff `allocOk`; on failure
return `NULL`), initialise the watch with empty mask and no tombstone,
then run `watch_update` for the requested interest and return the watch
regardless of whether the `epoll_ctl` inside succeeded. -/
def epoll_watch_new (allocOk ok : Bool) (b : Option EMask)
    (interest : EMask) : Option EWatch × Option EMask :=
  if allocOk then
    let w : EWatch := ⟨EMask.none, false⟩
    let (w', b') := epoll_watch_update ok w b interest
    (some w', b')
  else (Option.none, b)

/-- epoll `watch_free`: if the stored mask is non-empty, issue
`EPOLL_CTL_DEL` (best effort: on failure the registration stays); then
set the tombstone.  The stored `events` field is not reset. -/
def epoll_watch_free (ok : Bool) (w : EWatch) (b : Option EMask) :
    EWatch × Option EMask :=
  let b' := if w.events ≠ EMask.none then
      (if ok then Option.none else b)
    else b
  ({ w with deleted := true }, b')

/-- A kqueue-backend watch: the `enable_read` / `enable_write` flags
and the tombstone flag. -/
structure KWatch where
  enable_read : Bool
  enable_write : Bool
  deleted : Bool
deriving DecidableEq, Repr

/-- Kernel-side kqueue registration for one descriptor: whether an
`EVFILT_READ` and an `EVFILT_WRITE` filter are registered. -/
structure KReg where
  regRead : Bool
  regWrite : Bool
deriving DecidableEq, Repr

/-- kqueue `watch_update`: per filter, when the requested bit differs
from the stored flag, queue an `EV_ADD`/`EV_DELETE` change and update
the stored flag; then submit the batch with one `kevent` call, which
succeeds iff `ok` (on failure the kernel state is unchanged but the
stored flags were already advanced). -/
def kqueue_watch_update (ok : Bool) (w : KWatch) (b : KReg)
    (interest : EMask) : KWatch × KReg :=
  let enableRead := interest.rd
  let enableWrite := interest.wr
  let changed := enableRead ≠ w.enable_read || enableWrite ≠ w.enable_write
  let w' := { w with enable_read := enableRead, enable_write := enableWrite }
  let b' := if changed && ok then ⟨enableRead, enableWrite⟩ else b
  (w', b')

/-- kqueue `watch_new`: allocate (succeeds iff `allocOk`), initialise
both enable flags to 0 and no tombstone, run `watch_update`, and return
the watch regardless of whether the `kevent` inside succeeded. -/
def kqueue_watch_new (allocOk ok : Bool) (b : KReg) (interest : EMask) :
    Option KWatch × KReg :=
  if allocOk then
    let w : KWatch := ⟨false, false, false⟩
    let (w', b') := kqueue_watch_update ok w b interest
    (some w', b')
  else (Option.none, b)

/-- kqueue `watch_free`: queue an `EV_DELETE` for each enabled filter;
if any were queued, submit the batch (succeeds iff `ok`); then set the
tombstone.  The stored enable flags are not reset. -/
def kqueue_watch_free (ok : Bool) (w : KWatch) (b : KReg) :
    KWatch × KReg :=
  let changed := w.enable_read || w.enable_write
  let b' := if changed && ok then
      ⟨(if w.enable_read then false else b.regRead),
       (if w.enable_write then false else b.regWrite)⟩
    else b
  ({ w with deleted := true }, b')

/-! Operation sequences over one watch, for the mask-parity claim.  A
watch is created by `watch_new` and then receives `watch_update` /
`watch_free` calls; each operation carries the success bit of its
backend change call. -/

/-- A host operation on an existing watch: `update` with a new interest or
`free`, with the success of the backend call. -/
inductive WatchOp where
  | update (ok : Bool) (interest : EMask)
  | free (ok : Bool)
deriving DecidableEq, Repr

/-- Whether the operation's backend call succeeded. -/
def WatchOp.ok : WatchOp → Bool
  | .update ok _ => ok
  | .free ok => ok

/-- Run one operation on an epoll watch. -/
def epollWatchStep (s : EWatch × Option EMask) (op : WatchOp) :
    EWatch × Option EMask :=
  match op with
  | .update ok interest => epoll_watch_update ok s.1 s.2 interest
  | .free ok => epoll_watch_free ok s.1 s.2

/-- Run a sequence of operations on an epoll watch created by
`watch_new` (with allocation succeeding and the initial apply's success
given by `ok₀`) for a fresh, unregistered descriptor. -/
def epollWatchRun (ok₀ : Bool) (interest : EMask) (ops : List WatchOp) :
    EWatch × Option EMask :=
  let w : EWatch := ⟨EMask.none, false⟩
  ops.foldl epollWatchStep (epoll_watch_update ok₀ w Option.none interest)

/-- Run one operation on a kqueue watch. -/
def kqueueWatchStep (s : KWatch × KReg) (op : WatchOp) : KWatch × KReg :=
  match op with
  | .update ok interest => kqueue_watch_update ok s.1 s.2 interest
  | .free ok => kqueue_watch_free ok s.1 s.2

/-- Run a sequence of operations on a kqueue watch created by
`watch_new` for a fresh descriptor with neither filter registered. -/
def kqueueWatchRun (ok₀ : Bool) (interest : EMask) (ops : List WatchOp) :
    KWatch × KReg :=
  let w : KWatch := ⟨false, false, false⟩
  ops.foldl kqueueWatchStep (kqueue_watch_update ok₀ w ⟨false, false⟩ interest)

/-! ### Event dispatch

The reactor loop dispatches the events returned by the backend wait.
Watches are identified by their cookie — a natural number.  The
mutable state the dispatch touches is: the `deleted` tombstone flag of
every watch, the `orphaned_watches` reap list, and the `stop` latch.
A watch callback is modelled by its observable effect: the set of
watches it frees (`watch_free` sets the tombstone and prepends to the
reap list) and whether it calls `event_manager_stop`. -/

/-- The observable effect of one watch-callback invocation. -/
structure WEffect where
  frees : List Nat
  stop : Bool

/-- The dispatch-relevant reactor state. -/
structure DispState where
  deleted : Nat → Bool
  orphans : List Nat
  stop : Bool

/-- `watch_free` for each listed watch: set its tombstone and prepend
it to the `orphaned_watches` list. -/
def freeWatches (d : Nat → Bool) (orphans : List Nat) :
    List Nat → (Nat → Bool) × List Nat
  | [] => (d, orphans)
  | i :: rest =>
    freeWatches (fun j => if j = i then true else d j) (i :: orphans) rest

/-- Apply a callback's effect to the dispatch state. -/
def applyWEffect (s : DispState) (e : WEffect) : DispState :=
  let (d', o') := freeWatches s.deleted s.orphans e.frees
  ⟨d', o', s.stop || e.stop⟩

/-- One epoll event: the cookie (`data.ptr`, identifying the watch) and
the triggered `EPOLLIN` / `EPOLLOUT` bits. -/
structure EpollEvent where
  watch : Nat
  events : EMask
deriving Repr

/-- Dispatch of one epoll event (one step of the `for` loop over the
wait result): if the watch is not tombstoned and `EPOLLIN` triggered,
invoke the callback with `MHD_WATCH_IN`; then — re-reading the
tombstone, which the first invocation may have set — if not tombstoned
and `EPOLLOUT` triggered, invoke with `MHD_WATCH_OUT`.  Returns the new
state and the trace of invocations `(watch, isRead)`. -/
def epollDispatchOne (wcb : Nat → Bool → WEffect) (s : DispState)
    (ev : EpollEvent) : DispState × List (Nat × Bool) :=
  let fireIn := !s.deleted ev.watch && ev.events.rd
  let s1 := if fireIn then applyWEffect s (wcb ev.watch true) else s
  let fireOut := !s1.deleted ev.watch && ev.events.wr
  let s2 := if fireOut then applyWEffect s1 (wcb ev.watch false) else s1
  (s2, (if fireIn then [(ev.watch, true)] else [])
    ++ (if fireOut then [(ev.watch, false)] else []))

/-- Dispatch of a whole epoll wait result, in array order. -/
def epollDispatch (wcb : Nat → Bool → WEffect) (s : DispState) :
    List EpollEvent → DispState × List (Nat × Bool)
  | [] => (s, [])
  | ev :: rest =>
    let p := epollDispatchOne wcb s ev
    let q := epollDispatch wcb p.1 rest
    (q.1, p.2 ++ q.2)

/-- The filter of a kqueue event. -/
inductive KFilter where
  | read
  | write
deriving DecidableEq, Repr

/-- One kqueue event: the `EV_ERROR` flag, the cookie (`udata`), and
the filter. -/
structure KqueueEvent where
  isError : Bool
  watch : Nat
  filter : KFilter
deriving Repr

/-- Dispatch of one kqueue event: an `EV_ERROR` event is only logged;
otherwise the callback is invoked with `MHD_WATCH_IN` when the filter
is `EVFILT_READ` and the watch is not tombstoned, then — re-reading the
tombstone — with `MHD_WATCH_OUT` when the filter is `EVFILT_WRITE`. -/
def kqueueDispatchOne (wcb : Nat → Bool → WEffect) (s : DispState)
    (ev : KqueueEvent) : DispState × List (Nat × Bool) :=
  if ev.isError then (s, [])
  else
    let fireIn := !s.deleted ev.watch && ev.filter = KFilter.read
    let s1 := if fireIn then applyWEffect s (wcb ev.watch true) else s
    let fireOut := !s1.deleted ev.watch && ev.filter = KFilter.write
    let s2 := if fireOut then applyWEffect s1 (wcb ev.watch false) else s1
    (s2, (if fireIn then [(ev.watch, true)] else [])
      ++ (if fireOut then [(ev.watch, false)] else []))

/-- Dispatch of a whole kqueue wait result, in array order. -/
def kqueueDispatch (wcb : Nat → Bool → WEffect) (s : DispState) :
    List KqueueEvent → DispState × List (Nat × Bool)
  | [] => (s, [])
  | ev :: rest =>
    let p := kqueueDispatchOne wcb s ev
    let q := kqueueDispatch wcb p.1 rest
    (q.1, p.2 ++ q.2)

/-! ### The timeout firing sweep

On a zero-event iteration both backends walk the timeout chain and, for
every node whose `trigger_time` compares `timercmp(·, now, <)` — note:
with no `timerisset` guard — reset the trigger to the zero sentinel and
invoke the callback.  A timeout callback is modelled by its observable
effect: the instant it re-arms its own timeout to via `timeout_update`
(`Option.none` = it does not re-arm, leaving the sentinel), and whether
it calls `event_manager_stop`. -/

/-- The observable effect of one timeout-callback invocation. -/
structure TEffect where
  rearm : Option Timeval
  stop : Bool

/-- The firing sweep over the timeout chain (identical in both
backends): returns the chain with its new trigger times, the list of
fired timeout identifiers in traversal order, and whether any callback
requested a stop. -/
def sweepTimeouts (tcb : Nat → TEffect) (now : Timeval) :
    List (Nat × Timeval) → List (Nat × Timeval) × List Nat × Bool
  | [] => ([], [], false)
  | (i, tr) :: rest =>
    if timevalLt tr now then
      let e := tcb i
      let tr' := match e.rearm with
        | some tv => tv
        | .none => timevalZero
      let q := sweepTimeouts tcb now rest
      ((i, tr') :: q.1, i :: q.2.1, e.stop || q.2.2)
    else
      let q := sweepTimeouts tcb now rest
      ((i, tr) :: q.1, q.2.1, q.2.2)

/-! ### The reactor loop

One iteration of `event_manager_loop` after the budget computation: the
backend wait either returns a (possibly empty) batch of events, or is
interrupted by a signal (`errno == EINTR`), or fails.  On zero events
the timeout sweep runs; on events the dispatch runs; in both cases the
reap then frees every orphaned watch.  On `EINTR` the code `continue`s
— skipping dispatch *and* reap; on any other error it returns `-1`
immediately — also skipping the reap and leaving the backend fd open.
The loop state carries the backend descriptor (`epoll_fd` /
`kqueue_fd`; a negative value means closed), the timeout chain, and the
dispatch state. -/

/-- Outcome of one backend wait call, for event type `ε`. -/
inductive WaitOutcome (ε : Type) where
  | ok (evs : List ε)
  | interrupted
  | failed

/-- The reactor state threaded through the loop (field `fd` is
`epoll_fd` resp. `kqueue_fd`). -/
structure EMState where
  fd : Int
  timeouts : List (Nat × Timeval)
  deleted : Nat → Bool
  orphans : List Nat
  stop : Bool

/-- One callback invocation recorded in the loop trace. -/
inductive Inv where
  | timeoutCb (id : Nat)
  | watchCb (id : Nat) (isRead : Bool)
deriving DecidableEq, Repr

/-- Whether an invocation is a timeout callback. -/
def Inv.isTimeoutCb : Inv → Bool
  | .timeoutCb _ => true
  | .watchCb _ _ => false

/-- Result of one loop iteration: continue with a new state and the
trace of invocations, restart after `EINTR`, or abort with `-1`. -/
inductive IterResult where
  | stepOk (s : EMState) (trace : List Inv)
  | stepEintr (s : EMState)
  | stepFatal (s : EMState)

/-- The state carried by an iteration result. -/
def IterResult.state : IterResult → EMState
  | .stepOk s _ => s
  | .stepEintr s => s
  | .stepFatal s => s

/-- The trace carried by an iteration result. -/
def IterResult.trace : IterResult → List Inv
  | .stepOk _ tr => tr
  | .stepEintr _ => []
  | .stepFatal _ => []

/-- One epoll loop iteration after the wait call returned `wo` with the
current time `now`: `ready == 0` runs the timeout sweep then the reap;
`ready == -1` with `EINTR` restarts, with any other errno aborts;
`ready > 0` dispatches the events then reaps. -/
def epollIterate (tcb : Nat → TEffect) (wcb : Nat → Bool → WEffect)
    (now : Timeval) (wo : WaitOutcome EpollEvent) (s : EMState) :
    IterResult :=
  match wo with
  | .interrupted => .stepEintr s
  | .failed => .stepFatal s
  | .ok evs =>
    if evs.length = 0 then
      let q := sweepTimeouts tcb now s.timeouts
      .stepOk
        { s with timeouts := q.1, stop := s.stop || q.2.2, orphans := [] }
        (q.2.1.map Inv.timeoutCb)
    else
      let p := epollDispatch wcb ⟨s.deleted, s.orphans, s.stop⟩ evs
      .stepOk
        { s with deleted := p.1.deleted, stop := p.1.stop, orphans := [] }
        (p.2.map fun x => Inv.watchCb x.1 x.2)

/-- One kqueue loop iteration; same control flow with kqueue dispatch. -/
def kqueueIterate (tcb : Nat → TEffect) (wcb : Nat → Bool → WEffect)
    (now : Timeval) (wo : WaitOutcome KqueueEvent) (s : EMState) :
    IterResult :=
  match wo with
  | .interrupted => .stepEintr s
  | .failed => .stepFatal s
  | .ok evs =>
    if evs.length = 0 then
      let q := sweepTimeouts tcb now s.timeouts
      .stepOk
        { s with timeouts := q.1, stop := s.stop || q.2.2, orphans := [] }
        (q.2.1.map Inv.timeoutCb)
    else
      let p := kqueueDispatch wcb ⟨s.deleted, s.orphans, s.stop⟩ evs
      .stepOk
        { s with deleted := p.1.deleted, stop := p.1.stop, orphans := [] }
        (p.2.map fun x => Inv.watchCb x.1 x.2)

/-- The `while (!em->stop)` loop of the epoll backend, with `fuel`
bounding the number of iterations (`Option.none` = fuel exhausted; the
C loop may run forever).  `oracle k` supplies iteration `k`'s
`gettimeofday` value and wait outcome.  On `stop` the backend fd is
closed and set to `-1` and the loop returns 0; a fatal wait error
returns `-1` with the fd left open. -/
def epollLoopGo (tcb : Nat → TEffect) (wcb : Nat → Bool → WEffect)
    (oracle : Nat → Timeval × WaitOutcome EpollEvent) :
    Nat → Nat → EMState → Option (Int × EMState × List Inv)
  | 0, _, _ => Option.none
  | fuel + 1, k, s =>
    if s.stop then some (0, { s with fd := -1 }, [])
    else
      match epollIterate tcb wcb (oracle k).1 (oracle k).2 s with
      | .stepOk s' tr =>
        match epollLoopGo tcb wcb oracle fuel (k + 1) s' with
        | some (r, s'', tr') => some (r, s'', tr ++ tr')
        | .none => Option.none
      | .stepEintr s' => epollLoopGo tcb wcb oracle fuel (k + 1) s'
      | .stepFatal s' => some (-1, s', [])

/-- epoll `event_manager_loop`: clear the stop latch, return `-1` at
once when the backend fd is invalid, else enter the loop. -/
def epoll_event_manager_loop (tcb : Nat → TEffect)
    (wcb : Nat → Bool → WEffect)
    (oracle : Nat → Timeval × WaitOutcome EpollEvent) (fuel : Nat)
    (s : EMState) : Option (Int × EMState × List Inv) :=
  let s0 := { s with stop := false }
  if s0.fd < 0 then some (-1, s0, [])
  else epollLoopGo tcb wcb oracle fuel 0 s0

/-- The `while (!em->stop)` loop of the kqueue backend. -/
def kqueueLoopGo (tcb : Nat → TEffect) (wcb : Nat → Bool → WEffect)
    (oracle : Nat → Timeval × WaitOutcome KqueueEvent) :
    Nat → Nat → EMState → Option (Int × EMState × List Inv)
  | 0, _, _ => Option.none
  | fuel + 1, k, s =>
    if s.stop then some (0, { s with fd := -1 }, [])
    else
      match kqueueIterate tcb wcb (oracle k).1 (oracle k).2 s with
      | .stepOk s' tr =>
        match kqueueLoopGo tcb wcb oracle fuel (k + 1) s' with
        | some (r, s'', tr') => some (r, s'', tr ++ tr')
        | .none => Option.none
      | .stepEintr s' => kqueueLoopGo tcb wcb oracle fuel (k + 1) s'
      | .stepFatal s' => some (-1, s', [])

/-- kqueue `event_manager_loop`. -/
def kqueue_event_manager_loop (tcb : Nat → TEffect)
    (wcb : Nat → Bool → WEffect)
    (oracle : Nat → Timeval × WaitOutcome KqueueEvent) (fuel : Nat)
    (s : EMState) : Option (Int × EMState × List Inv) :=
  let s0 := { s with stop := false }
  if s0.fd < 0 then some (-1, s0, [])
  else kqueueLoopGo tcb wcb oracle fuel 0 s0

/-! ## Helper lemmas on the timeval order -/

/-- `timercmp(·,·,<)` as a proposition. -/
lemma timevalLt_iff (a b : Timeval) :
    timevalLt a b = true ↔
      (a.sec < b.sec ∨ (a.sec = b.sec ∧ a.usec < b.usec)) := by
  simp [timevalLt]

/-- The strict timeval comparison is irreflexive. -/
lemma timevalLt_irrefl (a : Timeval) : timevalLt a a = false := by
  simp [timevalLt]

/-- From `a ≤ b` and `b ≤ c` conclude `a ≤ c` (stated on the negation
of the strict comparison). -/
lemma timevalLt_false_trans {a b c : Timeval}
    (h₁ : timevalLt b a = false) (h₂ : timevalLt c b = false) :
    timevalLt c a = false := by
  simp [timevalLt] at h₁ h₂ ⊢
  omega

/-- From `a ≤ b` and `b < c` conclude `¬ (c < a)`. -/
lemma timevalLt_false_of_lt {a b c : Timeval}
    (h₁ : timevalLt b a = false) (h₂ : timevalLt b c = true) :
    timevalLt c a = false := by
  simp [timevalLt] at h₁ h₂ ⊢
  omega

/-! ## The earliest-deadline scan finds the minimum -/

/-- The scan never increases the current best. -/
lemma scanFold_le_acc :
    ∀ (ts : List Timeval) (b t : Timeval),
      ts.foldl scanStep (some b) = some t → timevalLt b t = false
  | [], b, t => by
    intro h
    simp only [List.foldl_nil, Option.some.injEq] at h
    subst h
    exact timevalLt_irrefl b
  | tr :: rest, b, t => by
    intro h
    simp only [List.foldl_cons] at h
    by_cases hc : (timevalIsSet tr && timevalLt tr b) = true
    · have hstep : scanStep (some b) tr = some tr := by
        simp [scanStep, hc]
      rw [hstep] at h
      have hle := scanFold_le_acc rest tr t h
      exact timevalLt_false_of_lt hle (by
        simpa using (Bool.and_elim_right hc))
    · have hstep : scanStep (some b) tr = some b := by
        simp only [scanStep]
        rw [if_neg]
        simpa using hc
      rw [hstep] at h
      exact scanFold_le_acc rest b t h

/-- The scan's result is no larger than any armed element visited. -/
lemma scanFold_min :
    ∀ (ts : List Timeval) (acc : Option Timeval) (t : Timeval),
      ts.foldl scanStep acc = some t →
      ∀ u ∈ ts, timevalIsSet u = true → timevalLt u t = false
  | [], _, _ => by intro _ u hu; simp at hu
  | tr :: rest, acc, t => by
    intro h u hu hset
    simp only [List.foldl_cons] at h
    rcases List.mem_cons.mp hu with rfl | hmem
    · -- the head element: relate it to the new accumulator
      match acc with
      | none =>
        have hstep : scanStep none u = some u := by
          simp [scanStep, hset]
        rw [hstep] at h
        exact scanFold_le_acc rest u t h
      | some b =>
        by_cases hlt : timevalLt u b = true
        · have hstep : scanStep (some b) u = some u := by
            simp [scanStep, hset, hlt]
          rw [hstep] at h
          exact scanFold_le_acc rest u t h
        · have hstep : scanStep (some b) u = some b := by
            simp only [scanStep]
            rw [if_neg]
            simp [hset]
            simpa using hlt
          rw [hstep] at h
          have hbt := scanFold_le_acc rest b t h
          exact timevalLt_false_trans hbt (by simpa using hlt)
    · exact scanFold_min rest (scanStep acc tr) t h u hmem hset

/-- The scan's result is either the initial accumulator or an armed
element of the list. -/
lemma scanFold_mem :
    ∀ (ts : List Timeval) (acc : Option Timeval) (t : Timeval),
      ts.foldl scanStep acc = some t →
      acc = some t ∨ (t ∈ ts ∧ timevalIsSet t = true)
  | [], _, _ => by intro h; exact Or.inl h
  | tr :: rest, acc, t => by
    intro h
    simp only [List.foldl_cons] at h
    rcases scanFold_mem rest (scanStep acc tr) t h with hacc | ⟨hmem, hset⟩
    · cases acc with
      | none =>
        by_cases hs : timevalIsSet tr = true
        · have hstep : scanStep none tr = some tr := by simp [scanStep, hs]
          rw [hstep] at hacc
          obtain rfl : tr = t := by simpa using hacc
          exact Or.inr ⟨List.mem_cons_self _ _, hs⟩
        · simp only [Bool.not_eq_true] at hs
          have hstep : scanStep none tr = none := by simp [scanStep, hs]
          rw [hstep] at hacc
          cases hacc
      | some b =>
        by_cases hc : (timevalIsSet tr && timevalLt tr b) = true
        · have hstep : scanStep (some b) tr = some tr := by
            simp [scanStep, hc]
          rw [hstep] at hacc
          obtain rfl : tr = t := by simpa using hacc
          exact Or.inr ⟨List.mem_cons_self _ _, Bool.and_elim_left hc⟩
        · have hstep : scanStep (some b) tr = some b := by
            simp only [scanStep]
            rw [if_neg]
            simpa using hc
          rw [hstep] at hacc
          exact Or.inl hacc
    · exact Or.inr ⟨List.mem_cons_of_mem _ hmem, hset⟩

/-- `scanEarliest` returns an armed member of the list that no armed
member strictly undercuts: it is the earliest armed deadline. -/
lemma scanEarliest_isMin {ts : List Timeval} {t : Timeval}
    (h : scanEarliest ts = some t) :
    t ∈ ts ∧ timevalIsSet t = true ∧
      ∀ u ∈ ts, timevalIsSet u = true → timevalLt u t = false := by
  rcases scanFold_mem ts none t h with hacc | ⟨hmem, hset⟩
  · cases hacc
  · exact ⟨hmem, hset, scanFold_min ts none t h⟩

/-- C3 counterexample.  The claim says the wait budget is
`min(10000, ⌊(t−n)·1000⌋)` milliseconds and exactly 10000 with no
timeout armed.  Both parts fail: with the earliest deadline 11 s away
the epoll backend sleeps 11000 ms — there is no 10000 cap — and with
no timeout armed the kqueue backend's budget is the timespec `{1, 0}`,
i.e. 1000 ms, not 10000. -/
theorem wait_budget_counterexample :
    epollBudgetMs [⟨11, 0⟩] ⟨0, 0⟩ = 11000
    ∧ epollBudgetMs [⟨11, 0⟩] ⟨0, 0⟩
        ≠ Nat.min 10000 ((timevalUsec ⟨11, 0⟩ - timevalUsec ⟨0, 0⟩) / 1000)
    ∧ timespecMs (kqueueBudgetTs [] ⟨5, 0⟩) = 1000
    ∧ timespecMs (kqueueBudgetTs [] ⟨5, 0⟩) ≠ 10000 := by
  refine ⟨rfl, by decide, rfl, by decide⟩

/-- C3 (amended).  In every loop iteration, with no armed timeout the
epoll backend's wait budget is exactly 10000 ms while the kqueue
backend's is the timespec `{1, 0}` (one second); the earliest-deadline
scan returns a minimal armed trigger `t`, and when `t < now` the budget
is zero, otherwise the epoll budget is exactly `⌊(t−n)·1000⌋` ms with
no upper cap and the kqueue budget is the exact remaining time as a
timespec (also uncapped). -/
theorem wait_budget_amended (ts₀ ts₁ : List Timeval) (now₀ now₁ t : Timeval)
    (h0 : scanEarliest ts₀ = Option.none)
    (h1 : scanEarliest ts₁ = some t)
    (hn : now₁.usec < 1000000) :
    (epollBudgetMs ts₀ now₀ = 10000 ∧ kqueueBudgetTs ts₀ now₀ = ⟨1, 0⟩)
    ∧ (t ∈ ts₁ ∧ timevalIsSet t = true ∧
        ∀ u ∈ ts₁, timevalIsSet u = true → timevalLt u t = false)
    ∧ (timevalLt t now₁ = true →
        epollBudgetMs ts₁ now₁ = 0 ∧ kqueueBudgetTs ts₁ now₁ = ⟨0, 0⟩)
    ∧ (timevalLt t now₁ = false →
        epollBudgetMs ts₁ now₁ = (timevalUsec t - timevalUsec now₁) / 1000
        ∧ (kqueueBudgetTs ts₁ now₁).sec * 1000000000
            + (kqueueBudgetTs ts₁ now₁).nsec
            = (timevalUsec t - timevalUsec now₁) * 1000) := by
  refine ⟨⟨?_, ?_⟩, scanEarliest_isMin h1, fun hlt => ⟨?_, ?_⟩,
    fun hge => ⟨?_, ?_⟩⟩
  · simp [epollBudgetMs, h0]
  · simp [kqueueBudgetTs, h0]
  · simp [epollBudgetMs, h1, hlt]
  · simp [kqueueBudgetTs, h1, hlt]
  · have hord := hge
    simp [timevalLt] at hord
    simp only [epollBudgetMs, h1, hge, Bool.false_eq_true, if_false]
    by_cases hu : t.usec < now₁.usec <;>
      simp [timevalSub, timevalUsec, hu] <;> omega
  · have hord := hge
    simp [timevalLt] at hord
    simp only [kqueueBudgetTs, h1, hge, Bool.false_eq_true, if_false]
    by_cases hu : t.usec < now₁.usec <;>
      simp [timevalSub, timevalUsec, hu] <;> omega

/-- C3 witness: the amended budget theorem applied to the empty timeout
set and to the singleton set with deadline `{11, 0}` seen from time
`{0, 0}`. -/
theorem wait_budget_witness :
    (epollBudgetMs [] ⟨7, 0⟩ = 10000 ∧ kqueueBudgetTs [] ⟨7, 0⟩ = ⟨1, 0⟩)
    ∧ ((⟨11, 0⟩ : Timeval) ∈ [(⟨11, 0⟩ : Timeval)]
        ∧ timevalIsSet ⟨11, 0⟩ = true ∧
        ∀ u ∈ [(⟨11, 0⟩ : Timeval)], timevalIsSet u = true →
          timevalLt u ⟨11, 0⟩ = false)
    ∧ (timevalLt ⟨11, 0⟩ ⟨0, 0⟩ = true →
        epollBudgetMs [⟨11, 0⟩] ⟨0, 0⟩ = 0
        ∧ kqueueBudgetTs [⟨11, 0⟩] ⟨0, 0⟩ = ⟨0, 0⟩)
    ∧ (timevalLt ⟨11, 0⟩ ⟨0, 0⟩ = false →
        epollBudgetMs [⟨11, 0⟩] ⟨0, 0⟩
          = (timevalUsec ⟨11, 0⟩ - timevalUsec ⟨0, 0⟩) / 1000
        ∧ (kqueueBudgetTs [⟨11, 0⟩] ⟨0, 0⟩).sec * 1000000000
            + (kqueueBudgetTs [⟨11, 0⟩] ⟨0, 0⟩).nsec
            = (timevalUsec ⟨11, 0⟩ - timevalUsec ⟨0, 0⟩) * 1000) :=
  wait_budget_amended [] [⟨11, 0⟩] ⟨7, 0⟩ ⟨0, 0⟩ ⟨11, 0⟩
    (by decide) (by decide) (by decide)

/-- C4.  `timeout_new` on a non-empty list does not splice the old
tail's `next` pointer to the new node, so the appended timeout is not
reachable by a head-to-tail traversal: after inserting node 0 into the
empty list and then node 1, the `next`-chain from the head is `[0]`
even though the tail pointer names node 1 and node 1 was allocated in
the store.  (The single-node insert into the empty list does work.) -/
theorem timeout_new_tail_insert_bug :
    (timeout_new (timeout_new TimeoutList.empty 0 ⟨5, 0⟩) 1 ⟨6, 0⟩).chain 10
      = [0]
    ∧ (timeout_new (timeout_new TimeoutList.empty 0 ⟨5, 0⟩) 1
        ⟨6, 0⟩).timeout_tail = some 1
    ∧ (timeout_new (timeout_new TimeoutList.empty 0 ⟨5, 0⟩) 1 ⟨6, 0⟩).nodes 1
        = some ⟨Option.none, some 0, ⟨6, 0⟩⟩
    ∧ (timeout_new TimeoutList.empty 0 ⟨5, 0⟩).chain 10 = [0] :=
  ⟨rfl, rfl, rfl, rfl⟩

/-! ## Mask parity (C1) -/

/-- The mask-parity invariant for an epoll watch, weakened to allow a
tombstoned watch: either the watch is tombstoned, or the kernel's
registered mask equals the stored `events` mask. -/
def epollParityInv (s : EWatch × Option EMask) : Prop :=
  s.1.deleted = true ∨ epollRegMask s.2 = s.1.events

/-- A successful epoll operation preserves the parity invariant. -/
lemma epollStep_parity (op : WatchOp) (hok : op.ok = true)
    (s : EWatch × Option EMask) (h : epollParityInv s) :
    epollParityInv (epollWatchStep s op) := by
  obtain ⟨w, b⟩ := s
  cases op with
  | update ok interest =>
    obtain rfl : ok = true := hok
    by_cases he : interest = w.events
    · simpa [epollWatchStep, epoll_watch_update, he] using h
    · right
      by_cases hn : interest = EMask.none
      · subst hn
        simp [epollWatchStep, epoll_watch_update, if_neg he, epollRegMask]
      · simp [epollWatchStep, epoll_watch_update, if_neg he, hn,
          epollRegMask]
  | free ok =>
    left
    simp [epollWatchStep, epoll_watch_free]

/-- The kqueue mask-parity invariant: either tombstoned, or both
kernel-side filter registrations equal the stored enable flags. -/
def kqueueParityInv (s : KWatch × KReg) : Prop :=
  s.1.deleted = true ∨
    (s.2.regRead = s.1.enable_read ∧ s.2.regWrite = s.1.enable_write)

/-- A successful kqueue operation preserves the parity invariant. -/
lemma kqueueStep_parity (op : WatchOp) (hok : op.ok = true)
    (s : KWatch × KReg) (h : kqueueParityInv s) :
    kqueueParityInv (kqueueWatchStep s op) := by
  obtain ⟨w, b⟩ := s
  cases op with
  | update ok interest =>
    obtain rfl : ok = true := hok
    by_cases h₁ : interest.rd = w.enable_read <;>
      by_cases h₂ : interest.wr = w.enable_write
    · -- neither filter bit changes: the backend call is a no-op batch
      rcases h with h | ⟨p₁, p₂⟩
      · left
        simpa [kqueueWatchStep, kqueue_watch_update] using h
      · right
        simp [kqueueWatchStep, kqueue_watch_update, h₁, h₂]
        exact ⟨p₁, p₂⟩
    · right
      simp [kqueueWatchStep, kqueue_watch_update, h₁, h₂]
    · right
      simp [kqueueWatchStep, kqueue_watch_update, h₁, h₂]
    · right
      simp [kqueueWatchStep, kqueue_watch_update, h₁, h₂]
  | free ok =>
    left
    simp [kqueueWatchStep, kqueue_watch_free]

/-- Running any all-successful operation sequence preserves the parity
invariant (epoll). -/
lemma epollRun_parity :
    ∀ (ops : List WatchOp), (∀ op ∈ ops, op.ok = true) →
      ∀ s, epollParityInv s → epollParityInv (ops.foldl epollWatchStep s)
  | [], _, _, h => h
  | op :: rest, hok, s, h =>
    epollRun_parity rest (fun o ho => hok o (List.mem_cons_of_mem _ ho))
      (epollWatchStep s op)
      (epollStep_parity op (hok op (List.mem_cons_self _ _)) s h)

/-- Running any all-successful operation sequence preserves the parity
invariant (kqueue). -/
lemma kqueueRun_parity :
    ∀ (ops : List WatchOp), (∀ op ∈ ops, op.ok = true) →
      ∀ s, kqueueParityInv s → kqueueParityInv (ops.foldl kqueueWatchStep s)
  | [], _, _, h => h
  | op :: rest, hok, s, h =>
    kqueueRun_parity rest (fun o ho => hok o (List.mem_cons_of_mem _ ho))
      (kqueueWatchStep s op)
      (kqueueStep_parity op (hok op (List.mem_cons_self _ _)) s h)

/-- C1 counterexample.  The claim says a failed backend apply inside
`watch_update` leaves the stored mask unchanged.  In the source the
mask is overwritten unconditionally: creating a watch with empty
interest (a no-op apply) and then updating it to READ with a failing
`epoll_ctl` leaves the stored mask advanced to READ while the kernel
has nothing registered — the live watch violates mask parity. -/
theorem mask_parity_counterexample :
    (epollWatchRun true EMask.none [WatchOp.update false ⟨true, false⟩]).1
      = ⟨⟨true, false⟩, false⟩
    ∧ (epollWatchRun true EMask.none [WatchOp.update false ⟨true, false⟩]).2
      = Option.none
    ∧ ¬ ((epollWatchRun true EMask.none
          [WatchOp.update false ⟨true, false⟩]).1.deleted = false →
        epollRegMask (epollWatchRun true EMask.none
          [WatchOp.update false ⟨true, false⟩]).2
        = (epollWatchRun true EMask.none
            [WatchOp.update false ⟨true, false⟩]).1.events) := by
  refine ⟨rfl, rfl, by decide⟩

/-- C1 (amended).  After a `watch_new` followed by any sequence of
`watch_update` / `watch_free` operations in which every backend apply
call succeeds, every live (non-tombstoned) watch has its backend
registered mask equal to its stored mask, in both backends.  (When an
apply fails inside `watch_update`, the stored mask IS advanced to the
requested mask — see the counterexample — so the success of the apply
calls is required.) -/
theorem mask_parity_amended (interest : EMask) (ops : List WatchOp)
    (hok : ∀ op ∈ ops, op.ok = true) :
    ((epollWatchRun true interest ops).1.deleted = false →
      epollRegMask (epollWatchRun true interest ops).2
        = (epollWatchRun true interest ops).1.events)
    ∧ ((kqueueWatchRun true interest ops).1.deleted = false →
      (kqueueWatchRun true interest ops).2.regRead
          = (kqueueWatchRun true interest ops).1.enable_read
        ∧ (kqueueWatchRun true interest ops).2.regWrite
          = (kqueueWatchRun true interest ops).1.enable_write) := by
  constructor
  · intro hlive
    have hinit : epollParityInv
        (epoll_watch_update true ⟨EMask.none, false⟩ Option.none interest) :=
      epollStep_parity (.update true interest) rfl
        (⟨EMask.none, false⟩, Option.none) (Or.inr rfl)
    have := epollRun_parity ops hok _ hinit
    rcases this with h | h
    · exact absurd hlive (by simp [epollWatchRun] at h ⊢; exact h)
    · simpa [epollWatchRun] using h
  · intro hlive
    have hinit : kqueueParityInv
        (kqueue_watch_update true ⟨false, false, false⟩ ⟨false, false⟩
          interest) :=
      kqueueStep_parity (.update true interest) rfl
        (⟨false, false, false⟩, ⟨false, false⟩) (Or.inr ⟨rfl, rfl⟩)
    have := kqueueRun_parity ops hok _ hinit
    rcases this with h | h
    · exact absurd hlive (by simp [kqueueWatchRun] at h ⊢; exact h)
    · simpa [kqueueWatchRun] using h

/-- C1 witness: the amended parity theorem on a concrete all-successful
sequence — create with READ interest, update to READ+WRITE, then
downgrade to WRITE. -/
theorem mask_parity_witness :
    ((epollWatchRun true ⟨true, false⟩
        [WatchOp.update true ⟨true, true⟩,
         WatchOp.update true ⟨false, true⟩]).1.deleted = false →
      epollRegMask (epollWatchRun true ⟨true, false⟩
        [WatchOp.update true ⟨true, true⟩,
         WatchOp.update true ⟨false, true⟩]).2
        = (epollWatchRun true ⟨true, false⟩
            [WatchOp.update true ⟨true, true⟩,
             WatchOp.update true ⟨false, true⟩]).1.events)
    ∧ ((kqueueWatchRun true ⟨true, false⟩
        [WatchOp.update true ⟨true, true⟩,
         WatchOp.update true ⟨false, true⟩]).1.deleted = false →
      (kqueueWatchRun true ⟨true, false⟩
          [WatchOp.update true ⟨true, true⟩,
           WatchOp.update true ⟨false, true⟩]).2.regRead
          = (kqueueWatchRun true ⟨true, false⟩
              [WatchOp.update true ⟨true, true⟩,
               WatchOp.update true ⟨false, true⟩]).1.enable_read
        ∧ (kqueueWatchRun true ⟨true, false⟩
            [WatchOp.update true ⟨true, true⟩,
             WatchOp.update true ⟨false, true⟩]).2.regWrite
          = (kqueueWatchRun true ⟨true, false⟩
              [WatchOp.update true ⟨true, true⟩,
               WatchOp.update true ⟨false, true⟩]).1.enable_write) :=
  mask_parity_amended ⟨true, false⟩
    [WatchOp.update true ⟨true, true⟩, WatchOp.update true ⟨false, true⟩]
    (by decide)

/-! ## `watch_new` failure atomicity (C5) -/

/-- C5 counterexample.  The claim says that when the backend apply
fails inside `watch_new`, `watch_new` returns nil and no watch is
created.  In the source the apply failure is logged and swallowed
inside `watch_update`, and `watch_new` still returns the allocated
watch, in both backends. -/
theorem watch_new_failure_counterexample :
    (epoll_watch_new true false Option.none ⟨true, false⟩).1 ≠ Option.none
    ∧ (epoll_watch_new true false Option.none ⟨true, false⟩).1
        = some ⟨⟨true, false⟩, false⟩
    ∧ (kqueue_watch_new true false ⟨false, false⟩ ⟨true, false⟩).1
        ≠ Option.none
    ∧ (kqueue_watch_new true false ⟨false, false⟩ ⟨true, false⟩).1
        = some ⟨true, false, false⟩ := by
  refine ⟨by decide, rfl, by decide, rfl⟩

/-- C5 (amended).  `watch_new` returns nil exactly when the allocation
fails (leaving the backend untouched); when the allocation succeeds the
watch is returned even if the backend apply failed, with its stored
mask already advanced to the requested interest, the backend
registration being updated only when the apply succeeded. -/
theorem watch_new_failure_amended (ok : Bool) (b : Option EMask)
    (kb : KReg) (interest : EMask) :
    epoll_watch_new false ok b interest = (Option.none, b)
    ∧ epoll_watch_new true false b interest
        = (some ⟨interest, false⟩, b)
    ∧ epoll_watch_new true true b interest
        = (some ⟨interest, false⟩,
           if interest = EMask.none then b else some interest)
    ∧ kqueue_watch_new false ok kb interest = (Option.none, kb)
    ∧ kqueue_watch_new true false kb interest
        = (some ⟨interest.rd, interest.wr, false⟩, kb)
    ∧ kqueue_watch_new true true kb interest
        = (some ⟨interest.rd, interest.wr, false⟩,
           if interest.rd || interest.wr then ⟨interest.rd, interest.wr⟩
           else kb) := by
  obtain ⟨rd, wr⟩ := interest
  refine ⟨rfl, ?_, ?_, rfl, ?_, ?_⟩ <;>
    cases rd <;> cases wr <;>
      simp [epoll_watch_new, epoll_watch_update, kqueue_watch_new,
        kqueue_watch_update, EMask.none]

/-! ## No dispatch after free (C2) -/

/-- `watch_free` never clears a tombstone. -/
lemma freeWatches_deleted_mono :
    ∀ (ids : List Nat) (d : Nat → Bool) (o : List Nat) (w : Nat),
      d w = true → (freeWatches d o ids).1 w = true
  | [], _, _, _, h => h
  | i :: rest, d, o, w, h => by
    simp only [freeWatches]
    exact freeWatches_deleted_mono rest _ _ w (by
      by_cases hw : w = i <;> simp [hw, h])

/-- Applying a callback effect never clears a tombstone. -/
lemma applyWEffect_deleted_mono (s : DispState) (e : WEffect) (w : Nat)
    (h : s.deleted w = true) : (applyWEffect s e).deleted w = true := by
  simp only [applyWEffect]
  exact freeWatches_deleted_mono e.frees s.deleted s.orphans w h

/-- Conditionally applying a callback effect never clears a
tombstone. -/
lemma condWEffect_deleted_mono (s : DispState) (c : Bool) (e : WEffect)
    (w : Nat) (h : s.deleted w = true) :
    (if c then applyWEffect s e else s).deleted w = true := by
  cases c
  · simpa using h
  · simpa using applyWEffect_deleted_mono s e w h

/-- Dispatching one epoll event never clears a tombstone. -/
lemma epollDispatchOne_deleted_mono (wcb : Nat → Bool → WEffect)
    (s : DispState) (ev : EpollEvent) (w : Nat) (h : s.deleted w = true) :
    (epollDispatchOne wcb s ev).1.deleted w = true := by
  simp only [epollDispatchOne]
  exact condWEffect_deleted_mono _ _ _ w (condWEffect_deleted_mono _ _ _ w h)

/-- A tombstoned watch is not invoked by the dispatch of one epoll
event. -/
lemma epollDispatchOne_not_invoked (wcb : Nat → Bool → WEffect)
    (s : DispState) (ev : EpollEvent) (w : Nat) (h : s.deleted w = true) :
    ∀ p ∈ (epollDispatchOne wcb s ev).2, p.1 ≠ w := by
  intro p hp
  by_cases hw : ev.watch = w
  · subst hw
    simp [epollDispatchOne, h] at hp
  · have : p.1 = ev.watch := by
      simp only [epollDispatchOne, List.mem_append] at hp
      rcases hp with hp | hp <;> (split at hp <;> simp_all)
    rw [this]
    exact hw

/-- A tombstoned watch is never invoked by epoll event dispatch, and
the tombstone survives it. -/
lemma epollDispatch_not_invoked :
    ∀ (evs : List EpollEvent) (wcb : Nat → Bool → WEffect)
      (s : DispState) (w : Nat), s.deleted w = true →
      (∀ p ∈ (epollDispatch wcb s evs).2, p.1 ≠ w)
        ∧ (epollDispatch wcb s evs).1.deleted w = true
  | [], _, _, _, h => by
    refine ⟨?_, h⟩
    intro p hp
    simp [epollDispatch] at hp
  | ev :: rest, wcb, s, w, h => by
    have h1 := epollDispatchOne_deleted_mono wcb s ev w h
    have ih := epollDispatch_not_invoked rest wcb
      (epollDispatchOne wcb s ev).1 w h1
    refine ⟨?_, ih.2⟩
    intro p hp
    simp only [epollDispatch, List.mem_append] at hp
    rcases hp with hp | hp
    · exact epollDispatchOne_not_invoked wcb s ev w h p hp
    · exact ih.1 p hp

/-- Dispatching one kqueue event never clears a tombstone. -/
lemma kqueueDispatchOne_deleted_mono (wcb : Nat → Bool → WEffect)
    (s : DispState) (ev : KqueueEvent) (w : Nat)
    (h : s.deleted w = true) :
    (kqueueDispatchOne wcb s ev).1.deleted w = true := by
  simp only [kqueueDispatchOne]
  split
  · exact h
  · exact condWEffect_deleted_mono _ _ _ w
      (condWEffect_deleted_mono _ _ _ w h)

/-- A tombstoned watch is not invoked by the dispatch of one kqueue
event. -/
lemma kqueueDispatchOne_not_invoked (wcb : Nat → Bool → WEffect)
    (s : DispState) (ev : KqueueEvent) (w : Nat)
    (h : s.deleted w = true) :
    ∀ p ∈ (kqueueDispatchOne wcb s ev).2, p.1 ≠ w := by
  intro p hp
  simp only [kqueueDispatchOne] at hp
  split at hp
  · simp at hp
  · by_cases hw : ev.watch = w
    · subst hw
      simp [h] at hp
    · have : p.1 = ev.watch := by
        simp only [List.mem_append] at hp
        rcases hp with hp | hp <;> (split at hp <;> simp_all)
      rw [this]
      exact hw

/-- A tombstoned watch is never invoked by kqueue event dispatch, and
the tombstone survives it. -/
lemma kqueueDispatch_not_invoked :
    ∀ (evs : List KqueueEvent) (wcb : Nat → Bool → WEffect)
      (s : DispState) (w : Nat), s.deleted w = true →
      (∀ p ∈ (kqueueDispatch wcb s evs).2, p.1 ≠ w)
        ∧ (kqueueDispatch wcb s evs).1.deleted w = true
  | [], _, _, _, h => by
    refine ⟨?_, h⟩
    intro p hp
    simp [kqueueDispatch] at hp
  | ev :: rest, wcb, s, w, h => by
    have h1 := kqueueDispatchOne_deleted_mono wcb s ev w h
    have ih := kqueueDispatch_not_invoked rest wcb
      (kqueueDispatchOne wcb s ev).1 w h1
    refine ⟨?_, ih.2⟩
    intro p hp
    simp only [kqueueDispatch, List.mem_append] at hp
    rcases hp with hp | hp
    · exact kqueueDispatchOne_not_invoked wcb s ev w h p hp
    · exact ih.1 p hp

/-- Dispatch of a concatenated event array is the dispatch of the first
part followed by the dispatch of the second from the resulting state,
with the traces concatenated: the hypothesis of the C2 theorem below
therefore speaks about a split of one wait result's event array. -/
lemma epollDispatch_append (wcb : Nat → Bool → WEffect) :
    ∀ (evs₁ evs₂ : List EpollEvent) (s : DispState),
      epollDispatch wcb s (evs₁ ++ evs₂)
        = ((epollDispatch wcb (epollDispatch wcb s evs₁).1 evs₂).1,
           (epollDispatch wcb s evs₁).2
             ++ (epollDispatch wcb (epollDispatch wcb s evs₁).1 evs₂).2)
  | [], evs₂, s => by simp [epollDispatch]
  | ev :: rest, evs₂, s => by
    have ih := epollDispatch_append wcb rest evs₂
      (epollDispatchOne wcb s ev).1
    simp only [List.cons_append, epollDispatch, List.append_eq]
    rw [ih]
    simp [List.append_assoc]

/-- Dispatch of a concatenated kqueue event array decomposes the same
way. -/
lemma kqueueDispatch_append (wcb : Nat → Bool → WEffect) :
    ∀ (evs₁ evs₂ : List KqueueEvent) (s : DispState),
      kqueueDispatch wcb s (evs₁ ++ evs₂)
        = ((kqueueDispatch wcb (kqueueDispatch wcb s evs₁).1 evs₂).1,
           (kqueueDispatch wcb s evs₁).2
             ++ (kqueueDispatch wcb (kqueueDispatch wcb s evs₁).1 evs₂).2)
  | [], evs₂, s => by simp [kqueueDispatch]
  | ev :: rest, evs₂, s => by
    have ih := kqueueDispatch_append wcb rest evs₂
      (kqueueDispatchOne wcb s ev).1
    simp only [List.cons_append, kqueueDispatch, List.append_eq]
    rw [ih]
    simp [List.append_assoc]

/-- C2.  During event dispatch every event whose cookie points to a
tombstoned watch is silently dropped: if after dispatching a first
portion of the wait result the watch `w` is tombstoned (it was freed
before the iteration or by any callback during that portion, including
another watch's callback), then no invocation in the dispatch of the
remaining events is for `w` — in both backends.  By
`epollDispatch_append` / `kqueueDispatch_append` the two dispatches
together are exactly the dispatch of the full event array. -/
theorem no_dispatch_after_free (wcb : Nat → Bool → WEffect)
    (s : DispState) (evs₁ evs₂ : List EpollEvent) (w : Nat)
    (h : (epollDispatch wcb s evs₁).1.deleted w = true)
    (kwcb : Nat → Bool → WEffect) (ks : DispState)
    (kevs₁ kevs₂ : List KqueueEvent) (kw : Nat)
    (hk : (kqueueDispatch kwcb ks kevs₁).1.deleted kw = true) :
    (∀ p ∈ (epollDispatch wcb (epollDispatch wcb s evs₁).1 evs₂).2,
      p.1 ≠ w)
    ∧ (∀ p ∈ (kqueueDispatch kwcb (kqueueDispatch kwcb ks kevs₁).1
        kevs₂).2, p.1 ≠ kw) :=
  ⟨(epollDispatch_not_invoked evs₂ wcb _ w h).1,
   (kqueueDispatch_not_invoked kevs₂ kwcb _ kw hk).1⟩

/-- C2 witness: watch 1's READ callback frees watch 2; a later event in
the same wait result still carries watch 2's cookie, and watch 2 is not
invoked. -/
theorem no_dispatch_after_free_witness :
    (∀ p ∈ (epollDispatch
        (fun i _ => ⟨if i = 1 then [2] else [], false⟩)
        (epollDispatch (fun i _ => ⟨if i = 1 then [2] else [], false⟩)
          ⟨fun _ => false, [], false⟩ [⟨1, ⟨true, false⟩⟩]).1
        [⟨2, ⟨true, true⟩⟩]).2, p.1 ≠ 2)
    ∧ (∀ p ∈ (kqueueDispatch
        (fun i _ => ⟨if i = 1 then [2] else [], false⟩)
        (kqueueDispatch (fun i _ => ⟨if i = 1 then [2] else [], false⟩)
          ⟨fun _ => false, [], false⟩ [⟨false, 1, KFilter.read⟩]).1
        [⟨false, 2, KFilter.read⟩]).2, p.1 ≠ 2) :=
  no_dispatch_after_free
    (fun i _ => ⟨if i = 1 then [2] else [], false⟩)
    ⟨fun _ => false, [], false⟩ [⟨1, ⟨true, false⟩⟩] [⟨2, ⟨true, true⟩⟩]
    2 (by decide)
    (fun i _ => ⟨if i = 1 then [2] else [], false⟩)
    ⟨fun _ => false, [], false⟩ [⟨false, 1, KFilter.read⟩]
    [⟨false, 2, KFilter.read⟩] 2 (by decide)

/-! ## The timeout firing sweep (C6) -/

/-- C6 counterexample.  The claim concludes that each timeout fires at
most once per arming.  The sweep's comparison `timercmp(trigger, now,
<)` has no `timerisset` guard, and after firing the trigger is the zero
sentinel, which still compares strictly less than any positive `now`:
a timeout armed once at `{1, 0}` and never re-armed fires on the first
idle sweep (at `now = {5, 0}`) and then fires *again* on the next idle
sweep (at `now = {6, 0}`). -/
theorem timeout_firing_counterexample :
    (sweepTimeouts (fun _ => ⟨Option.none, false⟩) ⟨5, 0⟩
        [(0, ⟨1, 0⟩)]).2.1 = [0]
    ∧ (sweepTimeouts (fun _ => ⟨Option.none, false⟩) ⟨5, 0⟩
        [(0, ⟨1, 0⟩)]).1 = [(0, ⟨0, 0⟩)]
    ∧ (sweepTimeouts (fun _ => ⟨Option.none, false⟩) ⟨6, 0⟩
        ((sweepTimeouts (fun _ => ⟨Option.none, false⟩) ⟨5, 0⟩
          [(0, ⟨1, 0⟩)]).1)).2.1 = [0] :=
  ⟨rfl, rfl, rfl⟩

/-- C6 (amended).  On a firing sweep, exactly the chain nodes whose
trigger compares strictly less than `now` (which includes the zero
sentinel of an already-fired, disarmed timeout) are fired, in traversal
order; each fired node's trigger becomes the instant its callback
re-armed to via `timeout_update`, or the zero sentinel when the
callback did not re-arm (the sentinel is stored before the callback
runs, which is what makes the re-arm visible); unfired nodes are
untouched; and within one sweep each node fires at most as often as it
occurs in the chain — so a timeout that re-arms itself never fires
again in the current sweep, only on a later iteration.  Across sweeps,
however, a fired timeout left at the sentinel fires again (see the
counterexample), so "at most once per arming" does not hold. -/
theorem timeout_firing_amended (tcb : Nat → TEffect) (now : Timeval)
    (ts : List (Nat × Timeval)) :
    (sweepTimeouts tcb now ts).1
      = ts.map (fun x =>
          if timevalLt x.2 now then
            (x.1, match (tcb x.1).rearm with
              | some tv => tv
              | Option.none => timevalZero)
          else x)
    ∧ (sweepTimeouts tcb now ts).2.1
      = (ts.filter (fun x => timevalLt x.2 now)).map Prod.fst
    ∧ ∀ i : Nat, (sweepTimeouts tcb now ts).2.1.count i
        ≤ (ts.map Prod.fst).count i := by
  have main : (sweepTimeouts tcb now ts).1
      = ts.map (fun x =>
          if timevalLt x.2 now then
            (x.1, match (tcb x.1).rearm with
              | some tv => tv
              | Option.none => timevalZero)
          else x)
      ∧ (sweepTimeouts tcb now ts).2.1
        = (ts.filter (fun x => timevalLt x.2 now)).map Prod.fst := by
    induction ts with
    | nil => simp [sweepTimeouts]
    | cons x rest ih =>
      obtain ⟨i, tr⟩ := x
      by_cases h : timevalLt tr now = true <;>
        simp [sweepTimeouts, h, ih.1, ih.2]
  refine ⟨main.1, main.2, fun j => ?_⟩
  rw [main.2]
  exact ((List.filter_sublist ts).map Prod.fst).count_le j

/-! ## The timeout firing gate (C7) -/

/-- C7.  Expired timeouts are fired only on iterations whose backend
wait returned zero events: on an iteration where the wait returns one
or more events, the trace contains no timeout-callback invocation —
whatever the timeout set looks like (in particular even if some
trigger has passed) — in both backends. -/
theorem timeout_firing_gate (tcb : Nat → TEffect)
    (wcb : Nat → Bool → WEffect) (now know : Timeval) (s ks : EMState)
    (evs : List EpollEvent) (kevs : List KqueueEvent)
    (h : evs ≠ []) (hk : kevs ≠ []) :
    (∀ i ∈ (epollIterate tcb wcb now (.ok evs) s).trace,
      i.isTimeoutCb = false)
    ∧ ∀ i ∈ (kqueueIterate tcb wcb know (.ok kevs) ks).trace,
      i.isTimeoutCb = false := by
  constructor
  · cases evs with
    | nil => exact absurd rfl h
    | cons e rest =>
      intro i hi
      simp only [epollIterate, List.length_cons] at hi
      rw [if_neg (Nat.succ_ne_zero _)] at hi
      simp only [IterResult.trace, List.mem_map] at hi
      obtain ⟨p, _, hpe⟩ := hi
      rw [← hpe]
      rfl
  · cases kevs with
    | nil => exact absurd rfl hk
    | cons e rest =>
      intro i hi
      simp only [kqueueIterate, List.length_cons] at hi
      rw [if_neg (Nat.succ_ne_zero _)] at hi
      simp only [IterResult.trace, List.mem_map] at hi
      obtain ⟨p, _, hpe⟩ := hi
      rw [← hpe]
      rfl

/-- C7 witness: an iteration that returns one event fires no timeout
callback even though the timeout armed at `{1, 0}` has long expired at
`now = {5, 0}`. -/
theorem timeout_firing_gate_witness :
    (∀ i ∈ (epollIterate (fun _ => ⟨Option.none, false⟩)
        (fun _ _ => ⟨[], false⟩) ⟨5, 0⟩
        (.ok [⟨1, ⟨true, false⟩⟩])
        ⟨3, [(0, ⟨1, 0⟩)], fun _ => false, [], false⟩).trace,
      i.isTimeoutCb = false)
    ∧ ∀ i ∈ (kqueueIterate (fun _ => ⟨Option.none, false⟩)
        (fun _ _ => ⟨[], false⟩) ⟨5, 0⟩
        (.ok [⟨false, 1, KFilter.read⟩])
        ⟨3, [(0, ⟨1, 0⟩)], fun _ => false, [], false⟩).trace,
      i.isTimeoutCb = false :=
  timeout_firing_gate (fun _ => ⟨Option.none, false⟩)
    (fun _ _ => ⟨[], false⟩) ⟨5, 0⟩ ⟨5, 0⟩
    ⟨3, [(0, ⟨1, 0⟩)], fun _ => false, [], false⟩
    ⟨3, [(0, ⟨1, 0⟩)], fun _ => false, [], false⟩
    [⟨1, ⟨true, false⟩⟩] [⟨false, 1, KFilter.read⟩]
    (List.cons_ne_nil _ _) (List.cons_ne_nil _ _)

/-! ## Reap safety (C9) -/

/-- C9 counterexample.  The claim includes iterations whose wait was
interrupted by a signal; on `EINTR` the loop `continue`s, skipping the
reap, so a watch tombstoned before the wait (orphan 5 here) survives
the iteration. -/
theorem reap_safety_counterexample :
    (epollIterate (fun _ => ⟨Option.none, false⟩) (fun _ _ => ⟨[], false⟩)
      ⟨5, 0⟩ WaitOutcome.interrupted
      ⟨3, [], fun _ => false, [5], false⟩).state.orphans = [5]
    ∧ ([5] : List Nat) ≠ [] :=
  ⟨rfl, by decide⟩

/-- C9 (amended).  After every iteration whose backend wait returned a
result (zero or more events — not `EINTR`, not a wait failure), the
pending-reap list is empty: every watch tombstoned before or during
the iteration has been released at the iteration's end, in both
backends.  An interrupted or failing wait skips the reap and
tombstoned watches persist to a later iteration (see the
counterexample). -/
theorem reap_safety_amended (tcb : Nat → TEffect)
    (wcb : Nat → Bool → WEffect) (now know : Timeval) (s ks : EMState)
    (evs : List EpollEvent) (kevs : List KqueueEvent) :
    (epollIterate tcb wcb now (.ok evs) s).state.orphans = []
    ∧ (kqueueIterate tcb wcb know (.ok kevs) ks).state.orphans = [] := by
  constructor
  · by_cases h : evs.length = 0 <;>
      simp [epollIterate, h, IterResult.state]
  · by_cases h : kevs.length = 0 <;>
      simp [kqueueIterate, h, IterResult.state]

/-! ## Backend-fatal exit (C8) -/

/-- C8 counterexample.  The claim says a fatal wait error leaves the
backend handle closed.  The loop returns `-1` from inside the `while`
without reaching the `close` at the clean-exit path: the final state's
`fd` field is still 3, not `-1`. -/
theorem backend_fatal_counterexample :
    epoll_event_manager_loop (fun _ => ⟨Option.none, false⟩)
      (fun _ _ => ⟨[], false⟩) (fun _ => (⟨5, 0⟩, WaitOutcome.failed)) 1
      ⟨3, [], fun _ => false, [], false⟩
      = some (-1, ⟨3, [], fun _ => false, [], false⟩, [])
    ∧ ((3 : Int) ≠ -1) :=
  ⟨rfl, by decide⟩

/-- C8 (amended).  In both backends: when the wait fails with an error
other than `EINTR`, the loop returns `-1` with the state unchanged —
in particular the backend handle is left open, not closed; when the
wait is interrupted by a signal, the iteration restarts with no error
and no state change; and when the stop latch is observed the loop
closes the backend handle (fd becomes `-1`) and returns 0. -/
theorem backend_fatal_amended (tcb : Nat → TEffect)
    (wcb : Nat → Bool → WEffect)
    (o₁ : Nat → Timeval × WaitOutcome EpollEvent) (f₁ k₁ : Nat)
    (s₁ : EMState) (h₁ : s₁.stop = false) (h₂ : (o₁ k₁).2 = .failed)
    (o₂ : Nat → Timeval × WaitOutcome EpollEvent) (f₂ k₂ : Nat)
    (s₂ : EMState) (h₃ : s₂.stop = false) (h₄ : (o₂ k₂).2 = .interrupted)
    (o₃ : Nat → Timeval × WaitOutcome EpollEvent) (f₃ k₃ : Nat)
    (s₃ : EMState) (h₅ : s₃.stop = true)
    (p₁ : Nat → Timeval × WaitOutcome KqueueEvent) (g₁ j₁ : Nat)
    (t₁ : EMState) (h₆ : t₁.stop = false) (h₇ : (p₁ j₁).2 = .failed)
    (p₂ : Nat → Timeval × WaitOutcome KqueueEvent) (g₂ j₂ : Nat)
    (t₂ : EMState) (h₈ : t₂.stop = false) (h₉ : (p₂ j₂).2 = .interrupted)
    (p₃ : Nat → Timeval × WaitOutcome KqueueEvent) (g₃ j₃ : Nat)
    (t₃ : EMState) (h₀ : t₃.stop = true) :
    epollLoopGo tcb wcb o₁ (f₁ + 1) k₁ s₁ = some (-1, s₁, [])
    ∧ epollLoopGo tcb wcb o₂ (f₂ + 1) k₂ s₂
        = epollLoopGo tcb wcb o₂ f₂ (k₂ + 1) s₂
    ∧ epollLoopGo tcb wcb o₃ (f₃ + 1) k₃ s₃
        = some (0, { s₃ with fd := -1 }, [])
    ∧ kqueueLoopGo tcb wcb p₁ (g₁ + 1) j₁ t₁ = some (-1, t₁, [])
    ∧ kqueueLoopGo tcb wcb p₂ (g₂ + 1) j₂ t₂
        = kqueueLoopGo tcb wcb p₂ g₂ (j₂ + 1) t₂
    ∧ kqueueLoopGo tcb wcb p₃ (g₃ + 1) j₃ t₃
        = some (0, { t₃ with fd := -1 }, []) := by
  refine ⟨?_, ?_, ?_, ?_, ?_, ?_⟩
  · simp [epollLoopGo, h₁, h₂, epollIterate]
  · simp [epollLoopGo, h₃, h₄, epollIterate]
  · simp [epollLoopGo, h₅]
  · simp [kqueueLoopGo, h₆, h₇, kqueueIterate]
  · simp [kqueueLoopGo, h₈, h₉, kqueueIterate]
  · simp [kqueueLoopGo, h₀]

/-- C8 witness: the amended theorem at concrete states and oracles —
a failing wait, an interrupted wait, and a set stop latch, for both
backends. -/
theorem backend_fatal_witness :
    epollLoopGo (fun _ => ⟨Option.none, false⟩) (fun _ _ => ⟨[], false⟩)
        (fun _ => (⟨0, 0⟩, WaitOutcome.failed)) 1 0
        ⟨3, [], fun _ => false, [], false⟩
      = some (-1, ⟨3, [], fun _ => false, [], false⟩, [])
    ∧ epollLoopGo (fun _ => ⟨Option.none, false⟩) (fun _ _ => ⟨[], false⟩)
        (fun _ => (⟨0, 0⟩, WaitOutcome.interrupted)) 1 0
        ⟨3, [], fun _ => false, [], false⟩
      = epollLoopGo (fun _ => ⟨Option.none, false⟩)
          (fun _ _ => ⟨[], false⟩)
          (fun _ => (⟨0, 0⟩, WaitOutcome.interrupted)) 0 1
          ⟨3, [], fun _ => false, [], false⟩
    ∧ epollLoopGo (fun _ => ⟨Option.none, false⟩) (fun _ _ => ⟨[], false⟩)
        (fun _ => (⟨0, 0⟩, WaitOutcome.ok [])) 1 0
        ⟨3, [], fun _ => false, [], true⟩
      = some (0, { (⟨3, [], fun _ => false, [], true⟩ : EMState)
          with fd := -1 }, [])
    ∧ kqueueLoopGo (fun _ => ⟨Option.none, false⟩) (fun _ _ => ⟨[], false⟩)
        (fun _ => (⟨0, 0⟩, WaitOutcome.failed)) 1 0
        ⟨4, [], fun _ => false, [], false⟩
      = some (-1, ⟨4, [], fun _ => false, [], false⟩, [])
    ∧ kqueueLoopGo (fun _ => ⟨Option.none, false⟩) (fun _ _ => ⟨[], false⟩)
        (fun _ => (⟨0, 0⟩, WaitOutcome.interrupted)) 1 0
        ⟨4, [], fun _ => false, [], false⟩
      = kqueueLoopGo (fun _ => ⟨Option.none, false⟩)
          (fun _ _ => ⟨[], false⟩)
          (fun _ => (⟨0, 0⟩, WaitOutcome.interrupted)) 0 1
          ⟨4, [], fun _ => false, [], false⟩
    ∧ kqueueLoopGo (fun _ => ⟨Option.none, false⟩) (fun _ _ => ⟨[], false⟩)
        (fun _ => (⟨0, 0⟩, WaitOutcome.ok [])) 1 0
        ⟨4, [], fun _ => false, [], true⟩
      = some (0, { (⟨4, [], fun _ => false, [], true⟩ : EMState)
          with fd := -1 }, []) :=
  backend_fatal_amended (fun _ => ⟨Option.none, false⟩)
    (fun _ _ => ⟨[], false⟩)
    (fun _ => (⟨0, 0⟩, WaitOutcome.failed)) 0 0
    ⟨3, [], fun _ => false, [], false⟩ rfl rfl
    (fun _ => (⟨0, 0⟩, WaitOutcome.interrupted)) 0 0
    ⟨3, [], fun _ => false, [], false⟩ rfl rfl
    (fun _ => (⟨0, 0⟩, WaitOutcome.ok [])) 0 0
    ⟨3, [], fun _ => false, [], true⟩ rfl
    (fun _ => (⟨0, 0⟩, WaitOutcome.failed)) 0 0
    ⟨4, [], fun _ => false, [], false⟩ rfl rfl
    (fun _ => (⟨0, 0⟩, WaitOutcome.interrupted)) 0 0
    ⟨4, [], fun _ => false, [], false⟩ rfl rfl
    (fun _ => (⟨0, 0⟩, WaitOutcome.ok [])) 0 0
    ⟨4, [], fun _ => false, [], true⟩ rfl

/-! ## The loop is not re-enterable after exit (C10) -/

/-- A clean (`0`) return from the epoll loop implies the backend fd was
closed and set to `-1`. -/
lemma epollLoopGo_clean_fd (tcb : Nat → TEffect)
    (wcb : Nat → Bool → WEffect)
    (oracle : Nat → Timeval × WaitOutcome EpollEvent) :
    ∀ (fuel k : Nat) (s s' : EMState) (tr : List Inv),
      epollLoopGo tcb wcb oracle fuel k s = some (0, s', tr) → s'.fd = -1
  | 0, k, s, s', tr => by
    intro h
    simp [epollLoopGo] at h
  | fuel + 1, k, s, s', tr => by
    intro h
    simp only [epollLoopGo] at h
    by_cases hs : s.stop = true
    · rw [if_pos hs] at h
      simp only [Option.some.injEq, Prod.mk.injEq] at h
      rw [← h.2.1]
    · rw [if_neg hs] at h
      cases hiter : epollIterate tcb wcb (oracle k).1 (oracle k).2 s with
      | stepOk s₁ tr₁ =>
        rw [hiter] at h
        dsimp only at h
        cases hrec : epollLoopGo tcb wcb oracle fuel (k + 1) s₁ with
        | none =>
          rw [hrec] at h
          simp at h
        | some trip =>
          obtain ⟨r₂, s₂, tr₂⟩ := trip
          rw [hrec] at h
          simp only [Option.some.injEq, Prod.mk.injEq] at h
          obtain ⟨hr, hs', -⟩ := h
          rw [← hs']
          exact epollLoopGo_clean_fd tcb wcb oracle fuel (k + 1) s₁ s₂ tr₂
            (by rw [hrec, hr])
      | stepEintr s₁ =>
        rw [hiter] at h
        exact epollLoopGo_clean_fd tcb wcb oracle fuel (k + 1) s₁ s' tr h
      | stepFatal s₁ =>
        rw [hiter] at h
        simp at h

/-- A clean (`0`) return from the kqueue loop implies the backend fd
was closed and set to `-1`. -/
lemma kqueueLoopGo_clean_fd (tcb : Nat → TEffect)
    (wcb : Nat → Bool → WEffect)
    (oracle : Nat → Timeval × WaitOutcome KqueueEvent) :
    ∀ (fuel k : Nat) (s s' : EMState) (tr : List Inv),
      kqueueLoopGo tcb wcb oracle fuel k s = some (0, s', tr) → s'.fd = -1
  | 0, k, s, s', tr => by
    intro h
    simp [kqueueLoopGo] at h
  | fuel + 1, k, s, s', tr => by
    intro h
    simp only [kqueueLoopGo] at h
    by_cases hs : s.stop = true
    · rw [if_pos hs] at h
      simp only [Option.some.injEq, Prod.mk.injEq] at h
      rw [← h.2.1]
    · rw [if_neg hs] at h
      cases hiter : kqueueIterate tcb wcb (oracle k).1 (oracle k).2 s with
      | stepOk s₁ tr₁ =>
        rw [hiter] at h
        dsimp only at h
        cases hrec : kqueueLoopGo tcb wcb oracle fuel (k + 1) s₁ with
        | none =>
          rw [hrec] at h
          simp at h
        | some trip =>
          obtain ⟨r₂, s₂, tr₂⟩ := trip
          rw [hrec] at h
          simp only [Option.some.injEq, Prod.mk.injEq] at h
          obtain ⟨hr, hs', -⟩ := h
          rw [← hs']
          exact kqueueLoopGo_clean_fd tcb wcb oracle fuel (k + 1) s₁ s₂ tr₂
            (by rw [hrec, hr])
      | stepEintr s₁ =>
        rw [hiter] at h
        exact kqueueLoopGo_clean_fd tcb wcb oracle fuel (k + 1) s₁ s' tr h
      | stepFatal s₁ =>
        rw [hiter] at h
        simp at h

/-- C10.  After `event_manager_loop` returns cleanly (0, via the stop
latch) the backend descriptor has been closed and set to `-1`, so any
subsequent call to `event_manager_loop` on the resulting state — with
any callbacks, any oracle, any fuel — returns `-1` immediately with an
empty trace (nothing is waited for or dispatched), only the stop latch
having been cleared; the registered watches and timeouts are left in
place.  Both backends. -/
theorem loop_not_reenterable (tcb : Nat → TEffect)
    (wcb : Nat → Bool → WEffect)
    (oracle : Nat → Timeval × WaitOutcome EpollEvent) (fuel : Nat)
    (s s' : EMState) (tr : List Inv)
    (h : epoll_event_manager_loop tcb wcb oracle fuel s = some (0, s', tr))
    (tcb₂ : Nat → TEffect) (wcb₂ : Nat → Bool → WEffect)
    (oracle₂ : Nat → Timeval × WaitOutcome EpollEvent) (fuel₂ : Nat)
    (ktcb : Nat → TEffect) (kwcb : Nat → Bool → WEffect)
    (korc : Nat → Timeval × WaitOutcome KqueueEvent) (kfuel : Nat)
    (ks ks' : EMState) (ktr : List Inv)
    (hkq : kqueue_event_manager_loop ktcb kwcb korc kfuel ks
      = some (0, ks', ktr))
    (ktcb₂ : Nat → TEffect) (kwcb₂ : Nat → Bool → WEffect)
    (korc₂ : Nat → Timeval × WaitOutcome KqueueEvent) (kfuel₂ : Nat) :
    epoll_event_manager_loop tcb₂ wcb₂ oracle₂ fuel₂ s'
      = some (-1, { s' with stop := false }, [])
    ∧ kqueue_event_manager_loop ktcb₂ kwcb₂ korc₂ kfuel₂ ks'
      = some (-1, { ks' with stop := false }, []) := by
  constructor
  · have hfd : s'.fd = -1 := by
      simp only [epoll_event_manager_loop] at h
      by_cases hlt : ({ s with stop := false } : EMState).fd < 0
      · rw [if_pos hlt] at h
        simp only [Option.some.injEq, Prod.mk.injEq] at h
        exact absurd h.1 (by decide)
      · rw [if_neg hlt] at h
        exact epollLoopGo_clean_fd tcb wcb oracle fuel 0 _ s' tr h
    have hc : ({ s' with stop := false } : EMState).fd < 0 := by
      simp [hfd]
    simp only [epoll_event_manager_loop]
    rw [if_pos hc]
  · have hfd : ks'.fd = -1 := by
      simp only [kqueue_event_manager_loop] at hkq
      by_cases hlt : ({ ks with stop := false } : EMState).fd < 0
      · rw [if_pos hlt] at hkq
        simp only [Option.some.injEq, Prod.mk.injEq] at hkq
        exact absurd hkq.1 (by decide)
      · rw [if_neg hlt] at hkq
        exact kqueueLoopGo_clean_fd ktcb kwcb korc kfuel 0 _ ks' ktr hkq
    have hc : ({ ks' with stop := false } : EMState).fd < 0 := by
      simp [hfd]
    simp only [kqueue_event_manager_loop]
    rw [if_pos hc]

/-- C10 witness: a run in which the timeout callback sets the stop
latch, so the loop exits cleanly with fd closed; the second call on the
resulting state returns `-1` immediately with an empty trace even
though a (now-disarmed) timeout is still registered. -/
theorem loop_not_reenterable_witness :
    epoll_event_manager_loop (fun _ => ⟨Option.none, false⟩)
      (fun _ _ => ⟨[], false⟩) (fun _ => (⟨0, 0⟩, WaitOutcome.ok [])) 1
      ⟨-1, [(0, ⟨0, 0⟩)], fun _ => false, [], true⟩
      = some (-1, { (⟨-1, [(0, ⟨0, 0⟩)], fun _ => false, [], true⟩
          : EMState) with stop := false }, [])
    ∧ kqueue_event_manager_loop (fun _ => ⟨Option.none, false⟩)
      (fun _ _ => ⟨[], false⟩) (fun _ => (⟨0, 0⟩, WaitOutcome.ok [])) 1
      ⟨-1, [(0, ⟨0, 0⟩)], fun _ => false, [], true⟩
      = some (-1, { (⟨-1, [(0, ⟨0, 0⟩)], fun _ => false, [], true⟩
          : EMState) with stop := false }, []) :=
  loop_not_reenterable (fun _ => ⟨Option.none, true⟩)
    (fun _ _ => ⟨[], false⟩) (fun _ => (⟨5, 0⟩, WaitOutcome.ok [])) 2
    ⟨3, [(0, ⟨1, 0⟩)], fun _ => false, [], false⟩
    ⟨-1, [(0, ⟨0, 0⟩)], fun _ => false, [], true⟩ [Inv.timeoutCb 0] rfl
    (fun _ => ⟨Option.none, false⟩) (fun _ _ => ⟨[], false⟩)
    (fun _ => (⟨0, 0⟩, WaitOutcome.ok [])) 1
    (fun _ => ⟨Option.none, true⟩) (fun _ _ => ⟨[], false⟩)
    (fun _ => (⟨5, 0⟩, WaitOutcome.ok [])) 2
    ⟨3, [(0, ⟨1, 0⟩)], fun _ => false, [], false⟩
    ⟨-1, [(0, ⟨0, 0⟩)], fun _ => false, [], true⟩ [Inv.timeoutCb 0] rfl
    (fun _ => ⟨Option.none, false⟩) (fun _ _ => ⟨[], false⟩)
    (fun _ => (⟨0, 0⟩, WaitOutcome.ok [])) 1

end EventManager
